import Mathlib

/-!
Verification of the ZEO storage-server bootstrap/lifecycle code
(`src/ZEO/runzeo.py`) against its natural-language specification.

The Python code is shallowly embedded:

* storage openers (`opener.open()`) are `StorageSpec`s carrying their
  predetermined outcome (`Except` models a Python exception);
* the registry `self.storages` (a Python dict, string keys) is an
  association list with insert-or-replace semantics mirroring a Python
  dict assignment (`d[k] = v` keeps the original insertion position of an
  existing key and overwrites its value);
* side effects (logging, socket probing, unlinking, close calls) become
  an explicit trace of `Event`s;
* the environment of `ZEOServer.main` (`MainEnv`) fixes which lifecycle step
  fails and how the serving loop ends, so each exit path of the
  `try/finally` is one value of the environment.
-/

/-- A handle returned by `opener.open()`.  `closeFails` says whether this
close of this handle raises (the behaviour of a handle is fixed by the
environment).  `id` distinguishes handles. -/
structure StorageHandle where
  id : Nat
  closeFails : Bool
deriving Repr, DecidableEq

deriving instance DecidableEq for Except

/-- One entry of `options.storages`: a named storage opener (in the source a
ZODB `FileStorage` opener section).  `className` is `opener.__class__.__name__`;
`openResult` is the predetermined outcome of `opener.open()` (`Except.error`
models the open raising). -/
structure StorageSpec where
  name : String
  className : String
  openResult : Except String StorageHandle
deriving Repr, DecidableEq

/-- The registry type of `self.storages`: a Python dict from storage name to
handle, as an insertion-ordered association list with unique keys. -/
abbrev Registry := List (String × StorageHandle)

/-- Python dict assignment `d[k] = v`: overwrite in place if `k` is present
(keeping its insertion position), else append at the end. -/
def dictInsert (d : Registry) (k : String) (v : StorageHandle) : Registry :=
  match d with
  | [] => [(k, v)]
  | (k₀, v₀) :: rest =>
      if k₀ = k then (k, v) :: rest else (k₀, v₀) :: dictInsert rest k v

/-- Python dict lookup `d.get(k)`. -/
def dictGet (d : Registry) (k : String) : Option StorageHandle :=
  match d with
  | [] => none
  | (k₀, v₀) :: rest => if k₀ = k then some v₀ else dictGet rest k

/-- Observable side effects of the lifecycle code, in program order. -/
inductive Event where
  /-- the live-connection attempt made by `check_socket` via `can_connect` -/
  | probe
  /-- `self.options.usage(...)`: operator-facing usage error -/
  | usageError (msg : String)
  /-- a call of `clear_socket` (its file effect is modelled separately) -/
  | clearSocketCall
  /-- `info(msg)` -/
  | logInfo (msg : String)
  /-- `exception(msg)`: error logged together with `sys.exc_info()` context -/
  | logException (msg : String)
  /-- `opener.open()` was invoked for the named storage -/
  | openCall (name : String)
  /-- `storage.close()` was invoked on handle `h` registered under `name` -/
  | closeCall (name : String) (h : StorageHandle)
  /-- entry into `close_storages` -/
  | closeStoragesCall
  /-- `setup_signals` ran -/
  | setupSignalsCall
  /-- `create_server` ran -/
  | createServerCall
  /-- `loop_forever` entered the serving loop -/
  | loopForeverCall
deriving Repr, DecidableEq

/-- Model of `ZEOServer.open_storages`, starting from registry `reg` (the source
initialises `self.storages = {}` first).  For each opener in declaration
order: log `"opening storage %r using %s"`, call `open()`; a raise stops the
loop at once, leaving the registry as built so far.  Returns the event trace,
the registry, and the propagated exception if any.  (The `%r` quoting of the
name is elided from the logged string.) -/
def open_storages : List StorageSpec → Registry → List Event × Registry × Option String
  | [], reg => ([], reg, none)
  | spec :: rest, reg =>
      let evs := [Event.logInfo ("opening storage " ++ spec.name ++ " using " ++ spec.className),
                  Event.openCall spec.name]
      match spec.openResult with
      | .error e => (evs, reg, some e)
      | .ok h =>
          let (evs₂, reg₂, err) := open_storages rest (dictInsert reg spec.name h)
          (evs ++ evs₂, reg₂, err)

/-- Model of `ZEOServer.close_storages`: for each registry item, log
`"closing storage %r"`, call `close()`; a raise is caught by the bare
`except:` and logged via `exception("failed to close storage %r")`, and the
loop keeps going.  Total by construction: no close failure propagates. -/
def close_storages (reg : Registry) : List Event :=
  reg.flatMap fun p =>
    [Event.logInfo ("closing storage " ++ p.1), Event.closeCall p.1 p.2] ++
      (if p.2.closeFails then [Event.logException ("failed to close storage " ++ p.1)] else [])

/-- A Python exception escaping a lifecycle step: an ordinary exception, a
`sys.exit(code)` (`SystemExit`), or the `SystemExit` raised by
`options.usage` (which, per the spec, prints an explanatory message and
exits non-zero; `zdaemon` is an external collaborator). -/
inductive Err where
  | exc (msg : String)
  | systemExit (code : Nat)
  | usage (msg : String)
deriving Repr, DecidableEq

/-- Model of `ZEOServer.handle_sigterm`: log and `sys.exit(0)`. -/
def handle_sigterm : List Event × Err :=
  ([Event.logInfo "terminated by SIGTERM"], Err.systemExit 0)

/-- Model of `ZEOServer.handle_sigint`: log and `sys.exit(0)`. -/
def handle_sigint : List Event × Err :=
  ([Event.logInfo "terminated by SIGINT"], Err.systemExit 0)

/-- How the blocking serving loop (`loop_forever`) ends: a normal return, a
termination signal delivered during serving (its installed wrapper runs the
corresponding handler), or an unhandled failure inside the loop. -/
inductive LoopEnd where
  | normal
  | sigterm
  | sigint
  | fail (msg : String)
deriving Repr, DecidableEq

/-- Model of `ZEOServer.loop_forever` under a given loop ending: the serving loop is
external, so its behaviour is fixed by the environment.  A delivered
termination signal runs the installed wrapper, whose handler logs and raises
`SystemExit 0` out of the loop. -/
def loop_forever : LoopEnd → List Event × Option Err
  | .normal => ([Event.loopForeverCall], none)
  | .sigterm => ([Event.loopForeverCall] ++ handle_sigterm.1, some handle_sigterm.2)
  | .sigint => ([Event.loopForeverCall] ++ handle_sigint.1, some handle_sigint.2)
  | .fail m => ([Event.loopForeverCall], some (Err.exc m))

/-- Environment fixing one execution of `ZEOServer.main`: the preflight probe
outcome, the configured storages, whether `setup_signals` / `create_server`
raise, and how the serving loop ends. -/
structure MainEnv where
  canConnect : Bool
  specs : List StorageSpec
  setupResult : Option String
  createResult : Option String
  loopEnd : LoopEnd

/-- The `try` block body of `ZEOServer.main`: `open_storages`,
`setup_signals`, `create_server`, `loop_forever`, each step skipped once an
earlier one raised.  Returns the trace of the body, the registry as left behind
(`self.storages`), and the escaping exception if any. -/
def mainBody (env : MainEnv) : List Event × Registry × Option Err :=
  let (otr, reg, oerr) := open_storages env.specs []
  match oerr with
  | some e => (otr, reg, some (Err.exc e))
  | none =>
      match env.setupResult with
      | some e => (otr ++ [Event.setupSignalsCall], reg, some (Err.exc e))
      | none =>
          match env.createResult with
          | some e => (otr ++ [Event.setupSignalsCall, Event.createServerCall], reg,
                       some (Err.exc e))
          | none =>
              let (ltr, lerr) := loop_forever env.loopEnd
              (otr ++ [Event.setupSignalsCall, Event.createServerCall] ++ ltr, reg, lerr)

/-- Model of `ZEOServer.main`: `check_socket` (abort with a usage error if the probe
connects), `clear_socket`, then the `try` body, with the `finally` clause
running `close_storages` and `clear_socket` on every exit path before the
body exception, if any, is re-raised. -/
def ZEOServer.main (env : MainEnv) : List Event × Option Err :=
  if env.canConnect then
    ([Event.probe, Event.usageError "address already in use"],
     some (Err.usage "address already in use"))
  else
    let (btr, reg, berr) := mainBody env
    ([Event.probe, Event.clearSocketCall] ++ btr ++
       [Event.closeStoragesCall] ++ close_storages reg ++ [Event.clearSocketCall],
     berr)

/-- The server address: a `(host, port)` pair (an `AF_INET` tuple) or a
filesystem path (an `AF_UNIX` string — in the source the path case is
recognised by `isinstance(self.options.address, str)`). -/
inductive Address where
  | tcp (host : String) (port : Nat)
  | path (p : String)
deriving Repr, DecidableEq

/-- Model of `ZEOServer.can_connect`: make a stream socket and try to connect to the
resolved address; `socket.error` (no live peer accepting) yields 0, a
successful connection is closed and yields 1.  Whether a live peer accepts
is fixed by the environment flag `peerAccepts`. -/
def can_connect (peerAccepts : Bool) : Bool :=
  if peerAccepts then true else false

/-- Model of `ZEOServer.check_socket`: report a usage error if and only if
`can_connect` succeeds. -/
def check_socket (peerAccepts : Bool) : Option String :=
  if can_connect peerAccepts then some "address already in use" else none

/-- Model of `ZEOServer.clear_socket` acting on the filesystem (a list of existing
paths): for a path-based address, `os.unlink` it, ignoring `os.error`
(absence); for a tcp address, do nothing. -/
def clear_socket (addr : Address) (fs : List String) : List String :=
  match addr with
  | .path p => fs.filter fun q => q ≠ p
  | .tcp _ _ => fs

/-- A signal disposition: the special constants `SIG_IGN`/`SIG_DFL`, an
installed wrapper closing over the server method it invokes (discarding the
raw signal and frame arguments), or an arbitrary prior handler. -/
inductive SigDisp where
  | sigIgn
  | sigDfl
  | wrapper (methodName : String)
  | other (k : Nat)
deriving Repr, DecidableEq

/-- The platform as `setup_signals` sees it: whether `os.name == "posix"`,
the number of `signal.SIGXFSZ` when the platform defines it
(`hasattr` probing for the name SIGXFSZ), and the `signames` table
(signal number, symbolic name) produced by `init_signames`. -/
structure SignalPlatform where
  posix : Bool
  sigxfsz : Option Nat
  table : List (Nat × String)

/-- Python `s.lower()` on the underlying character list. -/
def pyLower (s : String) : String :=
  ⟨s.data.map Char.toLower⟩

/-- The unconditional special case of `setup_signals`: when the platform
defines `SIGXFSZ`, its disposition is set to `SIG_IGN` before the
table-driven installation. -/
def xfszStep (sigxfsz : Option Nat) (prior : Nat → SigDisp) : Nat → SigDisp :=
  match sigxfsz with
  | some x => fun s => if s = x then SigDisp.sigIgn else prior s
  | none => prior

/-- One iteration of the `setup_signals` loop over `signames.items()`: if
the server has a method `handle_` + `name.lower()` (dynamic `getattr`
lookup, modelled by the predicate `hasMethod`), install a wrapper invoking
it (the wrapper discards the raw signal and frame arguments). -/
def installStep (hasMethod : String → Bool) (disp : Nat → SigDisp) (p : Nat × String) :
    Nat → SigDisp :=
  let mname := "handle_" ++ pyLower p.2
  if hasMethod mname then
    fun s => if s = p.1 then SigDisp.wrapper mname else disp s
  else disp

/-- Model of `ZEOServer.setup_signals` as its effect on the per-signal disposition
map.  On non-POSIX platforms, return at once.  Otherwise set `SIGXFSZ` (when
present) to `SIG_IGN`, then walk the `signames` table installing wrappers
for the signals whose handler method exists. -/
def setup_signals (plat : SignalPlatform) (hasMethod : String → Bool)
    (prior : Nat → SigDisp) : Nat → SigDisp :=
  if plat.posix then
    plat.table.foldl (installStep hasMethod) (xfszStep plat.sigxfsz prior)
  else prior

/-- The methods `handle_sig...` actually defined on `ZEOServer`. -/
def zeoServerHasMethod (m : String) : Bool :=
  m = "handle_sigterm" || m = "handle_sigint" || m = "handle_sigusr2"

/-- The configuration object handed to the `FileStorage` opener by
`ZEOOptions.handle_filename` (class `FSConfig` in the source): the section
name, the path, and the fixed flags the source sets. -/
structure FSConfig where
  sectionName : String
  path : String
  create : Nat
  read_only : Nat
  stop : Option Nat
  quota : Option Nat
deriving Repr, DecidableEq

/-- A `FileStorage` opener as built by `handle_filename`; its `name` is the
section name of the configuration (ZODB gives the opener `conf.getSectionName()`
as its `.name`). -/
structure FileStorageOpener where
  config : FSConfig
deriving Repr, DecidableEq

def FileStorageOpener.name (o : FileStorageOpener) : String :=
  o.config.sectionName

/-- Model of `ZEOOptions.handle_filename`: on each `-f FILENAME` occurrence, start the
list when `self.storages` is falsy (`None` or empty), pick the name
`str(1 + len(self.storages))`, and append a `FileStorage` opener for
`FSConfig(name, arg)` (which sets `create=0`, `read_only=0`, `stop=None`,
`quota=None`). -/
def handle_filename (storages : Option (List FileStorageOpener)) (arg : String) :
    Option (List FileStorageOpener) :=
  let st := match storages with
    | none => []
    | some l => l
  some (st ++ [⟨⟨toString (1 + st.length), arg, 0, 0, none, none⟩⟩])

/-- Repeated `-f` occurrences applied in order, starting from the class
attribute `storages = None`. -/
def applyFilenames (init : Option (List FileStorageOpener)) (args : List String) :
    Option (List FileStorageOpener) :=
  args.foldl handle_filename init

/-- A `(sig ↦ name)` table with Python-dict assignment semantics on `Nat`
keys. -/
abbrev SigTable := List (Nat × String)

def sigDictInsert (d : SigTable) (k : Nat) (v : String) : SigTable :=
  match d with
  | [] => [(k, v)]
  | (k₀, v₀) :: rest =>
      if k₀ = k then (k, v) :: rest else (k₀, v₀) :: sigDictInsert rest k v

def sigDictGet (d : SigTable) (k : Nat) : Option String :=
  match d with
  | [] => none
  | (k₀, v₀) :: rest => if k₀ = k then some v₀ else sigDictGet rest k

/-- Python `s.startswith(p)` on the underlying character lists. -/
def pyStartsWith (s p : String) : Bool :=
  p.data.isPrefixOf s.data

/-- Whether a `signal.__dict__` entry name contributes to `signames`:
`name.startswith("SIG") and not name.startswith("SIG_")` (module dict keys
are strings, so the `getattr(name, "startswith", ...)` guard in the source
always finds the method). -/
def sigQualifies (name : String) : Bool :=
  pyStartsWith name "SIG" && !pyStartsWith name "SIG_"

/-- One iteration of the `init_signames` scan over
`signal.__dict__.items()`: record `signames[sig] = name` when the name
qualifies. -/
def signameStep (acc : SigTable) (p : String × Nat) : SigTable :=
  if sigQualifies p.1 then sigDictInsert acc p.2 p.1 else acc

/-- Model of `init_signames`: rebuild the global `signames` table by scanning
`signal.__dict__.items()` (given here as a list of `(name, value)` pairs)
and recording `signames[sig] = name` for each qualifying name. -/
def init_signames (moduleDict : List (String × Nat)) : SigTable :=
  moduleDict.foldl signameStep []

/-- Model of `signame(sig)` together with the lazily filled global: when the global
`signames` is still `None`, `init_signames()` fills it first; then the
result is `signames.get(sig) or "signal %d" % sig` (Python `or`: a missing
key — and likewise a falsy empty name — falls back to the numbered form).
Returns the new global state and the name. -/
def signame (tableState : Option SigTable) (moduleDict : List (String × Nat)) (sig : Nat) :
    SigTable × String :=
  let t := match tableState with
    | none => init_signames moduleDict
    | some t₀ => t₀
  (t, match sigDictGet t sig with
      | some n => if n = "" then "signal " ++ toString sig else n
      | none => "signal " ++ toString sig)

/-- Classifier: storage-open events. -/
def isOpenEv : Event → Bool
  | .openCall _ => true
  | _ => false

/-- Classifier: storage-close events. -/
def isCloseEv : Event → Bool
  | .closeCall _ _ => true
  | _ => false

/-- Classifier: the preflight probe. -/
def isProbeEv : Event → Bool
  | .probe => true
  | _ => false

/-- Classifier: `clear_socket` calls. -/
def isClearEv : Event → Bool
  | .clearSocketCall => true
  | _ => false

/-- Classifier: `setup_signals` ran. -/
def isSetupEv : Event → Bool
  | .setupSignalsCall => true
  | _ => false

/-- Classifier: the serving loop was entered. -/
def isServeEv : Event → Bool
  | .loopForeverCall => true
  | _ => false

/-- Classifier: entry into `close_storages`. -/
def isCloseStoragesEv : Event → Bool
  | .closeStoragesCall => true
  | _ => false

/-- No event of a trace satisfies `p`. -/
def noEvent (p : Event → Bool) (tr : List Event) : Prop :=
  ∀ e ∈ tr, p e = false

/-- Every `p`-event of the trace is strictly earlier than every `q`-event. -/
def eventsBefore (p q : Event → Bool) (tr : List Event) : Prop :=
  ∀ i, (hi : i < tr.length) → ∀ j, (hj : j < tr.length) →
    p tr[i] = true → q tr[j] = true → i < j

/-- Some occurrence of the event `e` is strictly earlier than every `q`-event. -/
def occursBeforeAll (e : Event) (q : Event → Bool) (tr : List Event) : Prop :=
  ∃ i, ∃ hi : i < tr.length, tr[i] = e ∧
    ∀ j, (hj : j < tr.length) → q tr[j] = true → i < j

/-- Some occurrence of the event `e` is strictly later than every `q`-event. -/
def occursAfterAll (e : Event) (q : Event → Bool) (tr : List Event) : Prop :=
  ∃ i, ∃ hi : i < tr.length, tr[i] = e ∧
    ∀ j, (hj : j < tr.length) → q tr[j] = true → j < i

/-- The handle a successful spec opens (dummy on the failing case, which the
lemmas using it exclude). -/
def specHandle (s : StorageSpec) : StorageHandle :=
  match s.openResult with
  | .ok h => h
  | .error _ => ⟨0, false⟩

/-- The registry built by a run of `open_storages` in which every open
succeeds. -/
def regAfter (specs : List StorageSpec) (reg : Registry) : Registry :=
  specs.foldl (fun r s => dictInsert r s.name (specHandle s)) reg

/-- The events logged and performed while opening `specs` (all succeeding). -/
def openTrace (specs : List StorageSpec) : List Event :=
  specs.flatMap fun s =>
    [Event.logInfo ("opening storage " ++ s.name ++ " using " ++ s.className),
     Event.openCall s.name]


/-- Classifier: `create_server` ran. -/
def isCreateEv : Event → Bool
  | .createServerCall => true
  | _ => false

/-- Classifier: any step of the `try` body of `main` (opening a storage,
arming signals, creating the server, serving). -/
def isBodyStepEv (e : Event) : Bool :=
  isOpenEv e || isSetupEv e || isCreateEv e || isServeEv e

/-- Classifier: teardown work (entry into `close_storages` or an individual
`close()` call). -/
def isTeardownEv (e : Event) : Bool :=
  isCloseStoragesEv e || isCloseEv e

/-- Concrete environment exercising C1: one storage, serving loop dies with
an unhandled exception. -/
def envC1 : MainEnv :=
  ⟨false, [⟨"1", "FileStorage", .ok ⟨10, true⟩⟩], none, none, LoopEnd.fail "boom"⟩

/-- Registry exercising C2: three handles, the middle close raises. -/
def regC2 : Registry := [("1", ⟨1, false⟩), ("2", ⟨2, true⟩), ("3", ⟨3, false⟩)]

/-- Specs exercising C3: storage "1" opens, storage "2" raises, storage "3"
is never reached. -/
def preC3 : List StorageSpec := [⟨"1", "FileStorage", .ok ⟨1, false⟩⟩]

def sC3 : StorageSpec := ⟨"2", "FileStorage", .error "disk full"⟩

def postC3 : List StorageSpec := [⟨"3", "FileStorage", .ok ⟨3, false⟩⟩]

/-- Specs exercising C10: two storages both named "dup". -/
def s1C10 : StorageSpec := ⟨"dup", "FileStorage", .ok ⟨100, false⟩⟩

def s2C10 : StorageSpec := ⟨"dup", "FileStorage", .ok ⟨200, false⟩⟩

/-- The environment of a run whose serving loop is ended by a delivered
termination signal `le` (SIGTERM or SIGINT): preflight passes, all storages
open, `setup_signals` and `create_server` succeed. -/
def termEnv (specs : List StorageSpec) (le : LoopEnd) : MainEnv :=
  ⟨false, specs, none, none, le⟩

/-- Concrete environment exercising C9: two storages, a normal serving-loop
return. -/
def envC9 : MainEnv :=
  ⟨false, [⟨"1", "FileStorage", .ok ⟨1, false⟩⟩, ⟨"2", "FileStorage", .ok ⟨2, true⟩⟩],
   none, none, LoopEnd.normal⟩

/-- The signal platform exercising C5: POSIX, `SIGXFSZ = 25` present, four
table entries. -/
def platC5 : SignalPlatform :=
  ⟨true, some 25, [(15, "SIGTERM"), (2, "SIGINT"), (25, "SIGXFSZ"), (1, "SIGHUP")]⟩

/-- A non-POSIX variant of the same platform. -/
def platC5np : SignalPlatform :=
  ⟨false, some 25, [(15, "SIGTERM"), (2, "SIGINT"), (25, "SIGXFSZ"), (1, "SIGHUP")]⟩

/-- Initial dispositions for the C5 witness, none of which is a wrapper. -/
def priorC5 : Nat → SigDisp := fun _ => SigDisp.sigDfl

/-- A small `signal.__dict__` exercising C8, with disposition constants and
a non-signal entry mixed in. -/
def dictC8 : List (String × Nat) :=
  [("SIGTERM", 15), ("SIG_IGN", 1), ("SIG_DFL", 0), ("SIGINT", 2), ("NSIG", 65)]

example : check_socket true = some "address already in use" := by decide

example : check_socket false = none := by decide

example : clear_socket (Address.path "/tmp/zeo.sock") ["/tmp/zeo.sock", "/tmp/x"] = ["/tmp/x"] := by
  decide

example :
    open_storages [⟨"1", "FileStorage", .ok ⟨10, false⟩⟩] [] =
      ([Event.logInfo "opening storage 1 using FileStorage", Event.openCall "1"],
       [("1", ⟨10, false⟩)], none) := by
  decide

example :
    close_storages [("1", ⟨10, true⟩), ("2", ⟨11, false⟩)] =
      [Event.logInfo "closing storage 1", Event.closeCall "1" ⟨10, true⟩,
       Event.logException "failed to close storage 1",
       Event.logInfo "closing storage 2", Event.closeCall "2" ⟨11, false⟩] := by
  decide

example :
    (applyFilenames none ["/tmp/a.fs", "/tmp/b.fs"]).map (List.map FileStorageOpener.name) =
      some ["1", "2"] := by decide

example :
    signame none [("SIGTERM", 15), ("SIG_IGN", 1), ("NSIG", 65)] 15 =
      ([(15, "SIGTERM")], "SIGTERM") := by rfl

example :
    signame (some [(15, "SIGTERM")]) [] 9 = ([(15, "SIGTERM")], "signal 9") := by rfl

example :
    setup_signals ⟨true, some 25, [(15, "SIGTERM"), (25, "SIGXFSZ")]⟩ zeoServerHasMethod
        (fun _ => SigDisp.sigDfl) 15 = SigDisp.wrapper "handle_sigterm" := by decide

theorem dictGet_dictInsert_self (d : Registry) (k : String) (v : StorageHandle) :
    dictGet (dictInsert d k v) k = some v := by
  induction d with
  | nil => simp [dictInsert, dictGet]
  | cons p rest ih =>
      obtain ⟨pk, pv⟩ := p
      by_cases h : pk = k
      · simp [dictInsert, dictGet, h]
      · simp [dictInsert, dictGet, h, ih]

theorem dictGet_dictInsert_ne (d : Registry) (k k₁ : String) (v : StorageHandle)
    (h : k₁ ≠ k) : dictGet (dictInsert d k v) k₁ = dictGet d k₁ := by
  have h₂ : k ≠ k₁ := fun hh => h hh.symm
  induction d with
  | nil => simp [dictInsert, dictGet, h₂]
  | cons p rest ih =>
      obtain ⟨pk, pv⟩ := p
      by_cases hp : pk = k
      · simp [dictInsert, dictGet, hp, h₂]
      · by_cases hp₁ : pk = k₁
        · simp [dictInsert, dictGet, hp, hp₁, h]
        · simp [dictInsert, dictGet, hp, hp₁, ih]

theorem keys_dictInsert_mem (d : Registry) (k : String) (v : StorageHandle)
    (h : k ∈ d.map Prod.fst) :
    (dictInsert d k v).map Prod.fst = d.map Prod.fst := by
  induction d with
  | nil => simp at h
  | cons p rest ih =>
      obtain ⟨pk, pv⟩ := p
      by_cases hp : pk = k
      · simp [dictInsert, hp]
      · simp only [List.map_cons, List.mem_cons] at h
        rcases h with h | h
        · exact absurd h.symm hp
        · simp [dictInsert, hp, ih h]

theorem keys_dictInsert_notMem (d : Registry) (k : String) (v : StorageHandle)
    (h : k ∉ d.map Prod.fst) :
    (dictInsert d k v).map Prod.fst = d.map Prod.fst ++ [k] := by
  induction d with
  | nil => simp [dictInsert]
  | cons p rest ih =>
      obtain ⟨pk, pv⟩ := p
      simp only [List.map_cons, List.mem_cons] at h
      push_neg at h
      have hp : pk ≠ k := fun hh => h.1 hh.symm
      simp [dictInsert, hp, ih h.2]

theorem keys_nodup_dictInsert (d : Registry) (k : String) (v : StorageHandle)
    (h : (d.map Prod.fst).Nodup) : ((dictInsert d k v).map Prod.fst).Nodup := by
  by_cases hk : k ∈ d.map Prod.fst
  · rw [keys_dictInsert_mem d k v hk]; exact h
  · rw [keys_dictInsert_notMem d k v hk]
    exact List.Nodup.append h (List.nodup_singleton k)
      (by simpa [List.disjoint_singleton] using hk)

theorem mem_of_dictGet (d : Registry) (k : String) (v : StorageHandle)
    (h : dictGet d k = some v) : (k, v) ∈ d := by
  induction d with
  | nil => simp [dictGet] at h
  | cons p rest ih =>
      obtain ⟨pk, pv⟩ := p
      by_cases hp : pk = k
      · subst hp
        simp [dictGet] at h
        subst h
        exact List.mem_cons_self _ _
      · simp only [dictGet, if_neg hp] at h
        exact List.mem_cons_of_mem _ (ih h)

theorem dictGet_of_mem (d : Registry) (k : String) (v : StorageHandle)
    (hn : (d.map Prod.fst).Nodup) (h : (k, v) ∈ d) : dictGet d k = some v := by
  induction d with
  | nil => simp at h
  | cons p rest ih =>
      obtain ⟨pk, pv⟩ := p
      simp only [List.map_cons, List.nodup_cons] at hn
      rcases List.mem_cons.mp h with h | h
      · cases h
        simp [dictGet]
      · have hk : pk ≠ k := by
          intro hh
          subst hh
          exact hn.1 (List.mem_map_of_mem Prod.fst h)
        simp [dictGet, hk, ih hn.2 h]

theorem regAfter_append (xs ys : List StorageSpec) (reg : Registry) :
    regAfter (xs ++ ys) reg = regAfter ys (regAfter xs reg) := by
  simp [regAfter, List.foldl_append]

theorem dictGet_regAfter_notMem (specs : List StorageSpec) (reg : Registry) (n : String)
    (h : n ∉ specs.map StorageSpec.name) :
    dictGet (regAfter specs reg) n = dictGet reg n := by
  induction specs generalizing reg with
  | nil => simp [regAfter]
  | cons s rest ih =>
      simp only [List.map_cons, List.mem_cons] at h
      push_neg at h
      show dictGet (regAfter rest (dictInsert reg s.name (specHandle s))) n = _
      rw [ih _ h.2, dictGet_dictInsert_ne _ _ _ _ h.1]

theorem keys_nodup_regAfter (specs : List StorageSpec) (reg : Registry)
    (h : (reg.map Prod.fst).Nodup) : ((regAfter specs reg).map Prod.fst).Nodup := by
  induction specs generalizing reg with
  | nil => exact h
  | cons s rest ih =>
      exact ih _ (keys_nodup_dictInsert _ _ _ h)

theorem dictGet_regAfter_of_nodup (specs : List StorageSpec) (reg : Registry)
    (s : StorageSpec) (hn : (specs.map StorageSpec.name).Nodup) (hs : s ∈ specs) :
    dictGet (regAfter specs reg) s.name = some (specHandle s) := by
  induction specs generalizing reg with
  | nil => simp at hs
  | cons t rest ih =>
      simp only [List.map_cons, List.nodup_cons] at hn
      rcases List.mem_cons.mp hs with h | h
      · subst h
        show dictGet (regAfter rest (dictInsert reg s.name (specHandle s))) s.name = _
        rw [dictGet_regAfter_notMem _ _ _ hn.1, dictGet_dictInsert_self]
      · exact ih _ hn.2 h

theorem open_storages_ok (specs : List StorageSpec) (reg : Registry)
    (h : ∀ s ∈ specs, (s.openResult).isOk = true) :
    open_storages specs reg = (openTrace specs, regAfter specs reg, none) := by
  induction specs generalizing reg with
  | nil => simp [open_storages, openTrace, regAfter]
  | cons s rest ih =>
      have hs := h s (List.mem_cons_self _ _)
      cases hr : s.openResult with
      | error e => rw [hr] at hs; simp [Except.isOk, Except.toBool] at hs
      | ok hd =>
          have hrest : ∀ t ∈ rest, (t.openResult).isOk = true :=
            fun t ht => h t (List.mem_cons_of_mem _ ht)
          have hsp : specHandle s = hd := by simp [specHandle, hr]
          simp [open_storages, hr, ih _ hrest, openTrace, hsp]
          show regAfter rest (dictInsert reg s.name hd) =
            regAfter rest (dictInsert reg s.name (specHandle s))
          rw [hsp]

theorem open_storages_fail (pre : List StorageSpec) (s : StorageSpec)
    (post : List StorageSpec) (reg : Registry) (e : String)
    (hok : ∀ t ∈ pre, (t.openResult).isOk = true) (hs : s.openResult = .error e) :
    open_storages (pre ++ s :: post) reg =
      (openTrace pre ++
        [Event.logInfo ("opening storage " ++ s.name ++ " using " ++ s.className),
         Event.openCall s.name],
       regAfter pre reg, some e) := by
  induction pre generalizing reg with
  | nil => simp [open_storages, hs, openTrace, regAfter]
  | cons t rest ih =>
      have ht := hok t (List.mem_cons_self _ _)
      cases hr : t.openResult with
      | error e₂ => rw [hr] at ht; simp [Except.isOk, Except.toBool] at ht
      | ok hd =>
          have hrest : ∀ u ∈ rest, (u.openResult).isOk = true :=
            fun u hu => hok u (List.mem_cons_of_mem _ hu)
          have hsp : specHandle t = hd := by simp [specHandle, hr]
          simp [open_storages, hr, ih _ hrest, openTrace, hsp]
          show regAfter rest (dictInsert reg t.name hd) =
            regAfter rest (dictInsert reg t.name (specHandle t))
          rw [hsp]

theorem openTrace_filter (specs : List StorageSpec) :
    (openTrace specs).filter isOpenEv = specs.map fun s => Event.openCall s.name := by
  induction specs with
  | nil => simp [openTrace]
  | cons s rest ih => simp [openTrace, isOpenEv, List.filter_append] at ih ⊢; exact ih

theorem open_storages_trace_events (specs : List StorageSpec) (reg : Registry) :
    ∀ e ∈ (open_storages specs reg).1,
      (∃ m, e = Event.logInfo m) ∨ ∃ n, e = Event.openCall n := by
  induction specs generalizing reg with
  | nil => simp [open_storages]
  | cons s rest ih =>
      intro e he
      cases hr : s.openResult with
      | error e₂ =>
          simp [open_storages, hr] at he
          rcases he with he | he
          · exact Or.inl ⟨_, he⟩
          · exact Or.inr ⟨_, he⟩
      | ok hd =>
          simp only [open_storages, hr] at he
          simp at he
          rcases he with he | he | he
          · exact Or.inl ⟨_, he⟩
          · exact Or.inr ⟨_, he⟩
          · exact ih _ e he

theorem close_storages_trace_events (reg : Registry) :
    ∀ e ∈ close_storages reg,
      (∃ m, e = Event.logInfo m) ∨ (∃ n h, e = Event.closeCall n h) ∨
        ∃ m, e = Event.logException m := by
  intro e he
  simp only [close_storages, List.mem_flatMap] at he
  obtain ⟨p, _, hp⟩ := he
  by_cases hf : p.2.closeFails = true
  · simp [hf] at hp
    rcases hp with hp | hp | hp
    · exact Or.inl ⟨_, hp⟩
    · exact Or.inr (Or.inl ⟨_, _, hp⟩)
    · exact Or.inr (Or.inr ⟨_, hp⟩)
  · simp [hf] at hp
    rcases hp with hp | hp
    · exact Or.inl ⟨_, hp⟩
    · exact Or.inr (Or.inl ⟨_, _, hp⟩)

theorem closeCall_mem_close_storages (reg : Registry) (n : String) (h : StorageHandle) :
    Event.closeCall n h ∈ close_storages reg ↔ (n, h) ∈ reg := by
  constructor
  · intro hm
    simp only [close_storages, List.mem_flatMap] at hm
    obtain ⟨p, hp, hmem⟩ := hm
    by_cases hf : p.2.closeFails = true
    · simp [hf] at hmem
      obtain ⟨h1, h2⟩ := hmem
      cases h1
      cases h2
      simpa using hp
    · simp [hf] at hmem
      obtain ⟨h1, h2⟩ := hmem
      cases h1
      cases h2
      simpa using hp
  · intro hm
    simp only [close_storages, List.mem_flatMap]
    refine ⟨(n, h), hm, ?_⟩
    by_cases hf : h.closeFails = true <;> simp [hf]

theorem logException_mem_close_storages (reg : Registry) (n : String) (h : StorageHandle)
    (hm : (n, h) ∈ reg) (hf : h.closeFails = true) :
    Event.logException ("failed to close storage " ++ n) ∈ close_storages reg := by
  simp only [close_storages, List.mem_flatMap]
  exact ⟨(n, h), hm, by simp [hf]⟩

theorem logInfo_mem_close_storages (reg : Registry) (n : String) (h : StorageHandle)
    (hm : (n, h) ∈ reg) :
    Event.logInfo ("closing storage " ++ n) ∈ close_storages reg := by
  simp only [close_storages, List.mem_flatMap]
  exact ⟨(n, h), hm, by by_cases hf : h.closeFails = true <;> simp [hf]⟩

theorem countP_close_storages (reg : Registry) :
    (close_storages reg).countP isCloseEv = reg.length := by
  induction reg with
  | nil => simp [close_storages]
  | cons p rest ih =>
      have : close_storages (p :: rest) =
          ([Event.logInfo ("closing storage " ++ p.1), Event.closeCall p.1 p.2] ++
            (if p.2.closeFails then
              [Event.logException ("failed to close storage " ++ p.1)] else [])) ++
            close_storages rest := by
        simp [close_storages]
      rw [this, List.countP_append, ih]
      by_cases hf : p.2.closeFails = true <;> simp [hf, List.countP_cons, isCloseEv] <;> omega

theorem mainBody_registry (env : MainEnv) :
    (mainBody env).2.1 = (open_storages env.specs []).2.1 := by
  rcases hr : open_storages env.specs [] with ⟨otr, reg, oerr⟩
  cases oerr <;> cases hs : env.setupResult <;> cases hc : env.createResult <;>
    cases hl : env.loopEnd <;>
    simp [mainBody, hr, hs, hc, hl, loop_forever, handle_sigterm, handle_sigint]

theorem mainBody_shape (env : MainEnv) :
    ∃ tail, (mainBody env).1 = (open_storages env.specs []).1 ++ tail ∧
      ∀ e ∈ tail, e = Event.setupSignalsCall ∨ e = Event.createServerCall ∨
        e = Event.loopForeverCall ∨ ∃ m, e = Event.logInfo m := by
  rcases hr : open_storages env.specs [] with ⟨otr, reg, oerr⟩
  cases oerr with
  | some e => exact ⟨[], by simp [mainBody, hr], by simp⟩
  | none =>
      cases hs : env.setupResult with
      | some e => exact ⟨[Event.setupSignalsCall], by simp [mainBody, hr, hs], by simp⟩
      | none =>
          cases hc : env.createResult with
          | some e =>
              exact ⟨[Event.setupSignalsCall, Event.createServerCall],
                by simp [mainBody, hr, hs, hc], by simp⟩
          | none =>
              refine ⟨[Event.setupSignalsCall, Event.createServerCall] ++
                (loop_forever env.loopEnd).1, ?_, ?_⟩
              · rcases hl : loop_forever env.loopEnd with ⟨ltr, lerr⟩
                simp [mainBody, hr, hs, hc, hl]
              · intro e he
                cases hl : env.loopEnd with
                | normal =>
                    simp [hl, loop_forever] at he
                    rcases he with he | he | he <;> simp [he]
                | sigterm =>
                    simp [hl, loop_forever, handle_sigterm] at he
                    rcases he with he | he | he | he <;> simp [he]
                | sigint =>
                    simp [hl, loop_forever, handle_sigint] at he
                    rcases he with he | he | he | he <;> simp [he]
                | fail m =>
                    simp [hl, loop_forever] at he
                    rcases he with he | he | he <;> simp [he]

theorem main_shape (env : MainEnv) (h : env.canConnect = false) :
    ZEOServer.main env =
      ([Event.probe, Event.clearSocketCall] ++ (mainBody env).1 ++
        [Event.closeStoragesCall] ++ close_storages (mainBody env).2.1 ++
        [Event.clearSocketCall],
       (mainBody env).2.2) := by
  rcases hb : mainBody env with ⟨btr, reg, berr⟩
  simp [ZEOServer.main, h, hb]

theorem noEvent_append (p : Event → Bool) (A B : List Event)
    (hA : noEvent p A) (hB : noEvent p B) : noEvent p (A ++ B) := by
  intro e he
  rcases List.mem_append.mp he with h | h
  · exact hA e h
  · exact hB e h

theorem eventsBefore_append (p q : Event → Bool) (A B : List Event)
    (hpB : noEvent p B) (hqA : noEvent q A) : eventsBefore p q (A ++ B) := by
  intro i hi j hj hp hq
  have hiA : i < A.length := by
    by_contra hcon
    push_neg at hcon
    rw [List.getElem_append_right hcon] at hp
    have hib : i - A.length < B.length := by
      rw [List.length_append] at hi
      omega
    rw [hpB (B[i - A.length]) (List.getElem_mem _)] at hp
    exact Bool.false_ne_true hp
  have hjA : A.length ≤ j := by
    by_contra hcon
    push_neg at hcon
    rw [List.getElem_append_left hcon] at hq
    rw [hqA (A[j]) (List.getElem_mem _)] at hq
    exact Bool.false_ne_true hq
  omega

theorem eventsBefore_of_eq (p q : Event → Bool) (tr tr₂ : List Event)
    (h : tr = tr₂) (h₂ : eventsBefore p q tr₂) : eventsBefore p q tr := h ▸ h₂

theorem noEvent_mono (p q : Event → Bool) (tr : List Event)
    (h : noEvent q tr) (imp : ∀ e, p e = true → q e = true) : noEvent p tr := by
  intro e he
  cases hpe : p e with
  | false => rfl
  | true => exact absurd (imp e hpe) (by simp [h e he])

theorem mainBody_trace_events (env : MainEnv) :
    ∀ e ∈ (mainBody env).1,
      (∃ m, e = Event.logInfo m) ∨ (∃ n, e = Event.openCall n) ∨
        e = Event.setupSignalsCall ∨ e = Event.createServerCall ∨
        e = Event.loopForeverCall := by
  obtain ⟨tail, htr, htail⟩ := mainBody_shape env
  intro e he
  rw [htr] at he
  rcases List.mem_append.mp he with h | h
  · rcases open_storages_trace_events _ _ e h with h | h
    · exact Or.inl h
    · exact Or.inr (Or.inl h)
  · rcases htail e h with h | h | h | h
    · exact Or.inr (Or.inr (Or.inl h))
    · exact Or.inr (Or.inr (Or.inr (Or.inl h)))
    · exact Or.inr (Or.inr (Or.inr (Or.inr h)))
    · exact Or.inl h

theorem mainBody_noEvent (env : MainEnv) :
    noEvent (fun e => isProbeEv e || isClearEv e || isTeardownEv e) (mainBody env).1 := by
  intro e he
  rcases mainBody_trace_events env e he with ⟨m, h⟩ | ⟨n, h⟩ | h | h | h <;>
    subst h <;> rfl

theorem close_storages_noEvent (reg : Registry) :
    noEvent (fun e => isProbeEv e || isClearEv e || isBodyStepEv e || isCloseStoragesEv e)
      (close_storages reg) := by
  intro e he
  rcases close_storages_trace_events reg e he with ⟨m, h⟩ | ⟨n, hh, h⟩ | ⟨m, h⟩ <;>
    subst h <;> rfl

theorem open_storages_noEvent (specs : List StorageSpec) (reg : Registry) :
    noEvent (fun e => isProbeEv e || isClearEv e || isTeardownEv e || isSetupEv e ||
      isCreateEv e || isServeEv e) (open_storages specs reg).1 := by
  intro e he
  rcases open_storages_trace_events specs reg e he with ⟨m, h⟩ | ⟨n, h⟩ <;>
    subst h <;> rfl

theorem main_order_body_teardown (env : MainEnv) (h : env.canConnect = false) :
    eventsBefore isBodyStepEv isTeardownEv (ZEOServer.main env).1 := by
  have hm := main_shape env h
  have htr : (ZEOServer.main env).1 =
      ([Event.probe, Event.clearSocketCall] ++ (mainBody env).1) ++
        ([Event.closeStoragesCall] ++
          (close_storages (mainBody env).2.1 ++ [Event.clearSocketCall])) := by
    rw [hm]
    simp [List.append_assoc]
  rw [htr]
  apply eventsBefore_append
  · intro e he
    have he₂ : e = Event.closeStoragesCall ∨ e ∈ close_storages (mainBody env).2.1 ∨
        e = Event.clearSocketCall := by simpa using he
    rcases he₂ with hh | hh | hh
    · subst hh; rfl
    · have hc := close_storages_noEvent _ e hh
      revert hc
      cases e <;> simp [isProbeEv, isClearEv, isBodyStepEv, isOpenEv, isSetupEv,
        isCreateEv, isServeEv, isCloseStoragesEv]
    · subst hh; rfl
  · intro e he
    have he₂ : e = Event.probe ∨ e = Event.clearSocketCall ∨ e ∈ (mainBody env).1 := by
      simpa using he
    rcases he₂ with hh | hh | hh
    · subst hh; rfl
    · subst hh; rfl
    · have hc := mainBody_noEvent env e hh
      revert hc
      cases e <;> simp [isProbeEv, isClearEv, isTeardownEv, isCloseStoragesEv, isCloseEv]

theorem eventsBefore_mono (p p₂ q q₂ : Event → Bool) (tr : List Event)
    (h : eventsBefore p q tr) (hp : ∀ e, p₂ e = true → p e = true)
    (hq : ∀ e, q₂ e = true → q e = true) : eventsBefore p₂ q₂ tr := by
  intro i hi j hj hpe hqe
  exact h i hi j hj (hp _ hpe) (hq _ hqe)

/-- C1: once `main` passes preflight and enters the `try` block, the
teardown — `close_storages` then `clear_socket` — runs on every exit path
(normal loop return, `SystemExit` from a termination-signal handler, or an
unhandled exception in `open_storages` / `setup_signals` / `create_server` /
`loop_forever`), before the body error, if any, propagates out of `main`:
the teardown entry appears in the trace after every body step, the last
event is the final `clear_socket`, and the propagated outcome of `main` is
exactly that of the `try` body. -/
theorem C1_teardown_on_every_exit (env : MainEnv) (h : env.canConnect = false) :
    Event.closeStoragesCall ∈ (ZEOServer.main env).1 ∧
    (ZEOServer.main env).1.getLast? = some Event.clearSocketCall ∧
    eventsBefore isBodyStepEv isTeardownEv (ZEOServer.main env).1 ∧
    (ZEOServer.main env).2 = (mainBody env).2.2 := by
  have hm := main_shape env h
  refine ⟨?_, ?_, ?_, ?_⟩
  · rw [hm]
    simp
  · rw [hm]
    exact List.getLast?_concat _
  · exact main_order_body_teardown env h
  · rw [hm]

/-- Witness for C1 at `envC1`. -/
theorem C1_teardown_on_every_exit_witness :
    envC1.canConnect = false ∧
    (Event.closeStoragesCall ∈ (ZEOServer.main envC1).1 ∧
     (ZEOServer.main envC1).1.getLast? = some Event.clearSocketCall ∧
     eventsBefore isBodyStepEv isTeardownEv (ZEOServer.main envC1).1 ∧
     (ZEOServer.main envC1).2 = (mainBody envC1).2.2) :=
  ⟨by decide, C1_teardown_on_every_exit envC1 (by decide)⟩

/-- C2: `close_storages` calls `close()` on every registered handle (the
count of close calls equals the registry size), logs each individual close
failure with its captured exception context, and — being total by
construction, mirroring the bare `except:` that keeps going — re-raises no
close failure and lets no failure prevent the remaining closes. -/
theorem C2_close_all_best_effort (reg : Registry) :
    (∀ p ∈ reg, Event.closeCall p.1 p.2 ∈ close_storages reg) ∧
    (∀ p ∈ reg, p.2.closeFails = true →
      Event.logException ("failed to close storage " ++ p.1) ∈ close_storages reg) ∧
    (close_storages reg).countP isCloseEv = reg.length := by
  refine ⟨?_, ?_, countP_close_storages reg⟩
  · intro p hp
    exact (closeCall_mem_close_storages reg p.1 p.2).mpr (by simpa using hp)
  · intro p hp hf
    exact logException_mem_close_storages reg p.1 p.2 (by simpa using hp) hf

/-- Witness for C2 at `regC2`: all three handles are closed even though the
middle close raises, whose failure is logged. -/
theorem C2_close_all_best_effort_witness :
    Event.closeCall "1" ⟨1, false⟩ ∈ close_storages regC2 ∧
    Event.closeCall "2" ⟨2, true⟩ ∈ close_storages regC2 ∧
    Event.closeCall "3" ⟨3, false⟩ ∈ close_storages regC2 ∧
    Event.logException ("failed to close storage " ++ "2") ∈ close_storages regC2 ∧
    (close_storages regC2).countP isCloseEv = regC2.length :=
  ⟨(C2_close_all_best_effort regC2).1 ("1", ⟨1, false⟩) (by decide),
   (C2_close_all_best_effort regC2).1 ("2", ⟨2, true⟩) (by decide),
   (C2_close_all_best_effort regC2).1 ("3", ⟨3, false⟩) (by decide),
   (C2_close_all_best_effort regC2).2.1 ("2", ⟨2, true⟩) (by decide) (by decide),
   (C2_close_all_best_effort regC2).2.2⟩

/-- C3: `open_storages` opens specs in declaration order; when one open
raises, the exception propagates at once, the `open()` calls performed are
exactly those for the earlier specs plus the failing one (no later spec is
opened), the storages opened earlier stay in the registry, and
`open_storages` itself closes nothing. -/
theorem C3_open_failure_keeps_earlier_open (pre : List StorageSpec) (s : StorageSpec)
    (post : List StorageSpec) (e : String)
    (hok : ∀ t ∈ pre, (t.openResult).isOk = true) (hs : s.openResult = .error e)
    (hn : (pre.map StorageSpec.name).Nodup) :
    (open_storages (pre ++ s :: post) []).2.2 = some e ∧
    (open_storages (pre ++ s :: post) []).1.filter isOpenEv =
      (pre.map fun t => Event.openCall t.name) ++ [Event.openCall s.name] ∧
    (∀ t ∈ pre, dictGet (open_storages (pre ++ s :: post) []).2.1 t.name =
      some (specHandle t)) ∧
    noEvent isCloseEv (open_storages (pre ++ s :: post) []).1 := by
  have hF := open_storages_fail pre s post [] e hok hs
  refine ⟨by rw [hF], ?_, ?_, ?_⟩
  · simp only [hF]
    rw [List.filter_append, openTrace_filter]
    simp [isOpenEv]
  · intro t ht
    simp only [hF]
    exact dictGet_regAfter_of_nodup pre [] t hn ht
  · simp only [hF]
    intro e₂ he₂
    rcases List.mem_append.mp he₂ with hh | hh
    · have hot : openTrace pre = (open_storages pre []).1 := by
        rw [open_storages_ok pre [] hok]
      rw [hot] at hh
      rcases open_storages_trace_events pre [] e₂ hh with ⟨m, h⟩ | ⟨n, h⟩ <;> subst h <;> rfl
    · have hh₂ : e₂ = Event.logInfo ("opening storage " ++ s.name ++ " using " ++ s.className) ∨
          e₂ = Event.openCall s.name := by simpa using hh
      rcases hh₂ with h | h <;> subst h <;> rfl

/-- Witness for C3 at `preC3 ++ sC3 :: postC3`. -/
theorem C3_open_failure_keeps_earlier_open_witness :
    (open_storages (preC3 ++ sC3 :: postC3) []).2.2 = some "disk full" ∧
    (open_storages (preC3 ++ sC3 :: postC3) []).1.filter isOpenEv =
      (preC3.map fun t => Event.openCall t.name) ++ [Event.openCall sC3.name] ∧
    dictGet (open_storages (preC3 ++ sC3 :: postC3) []).2.1 "1" = some ⟨1, false⟩ ∧
    noEvent isCloseEv (open_storages (preC3 ++ sC3 :: postC3) []).1 := by
  have H := C3_open_failure_keeps_earlier_open preC3 sC3 postC3 "disk full"
    (by decide) (by decide) (by decide)
  exact ⟨H.1, H.2.1, H.2.2.1 ⟨"1", "FileStorage", .ok ⟨1, false⟩⟩ (by decide), H.2.2.2⟩

/-- C10: when two specs share a name, `open_storages` still calls `open()`
on both (the open calls cover every spec), but the dict assignment makes the
registry map that name to the later handle only; consequently
`close_storages` closes, under that name, exactly the later handle — the
earlier one is silently dropped and never passed to `close()`. -/
theorem C10_duplicate_name_drops_earlier (pre mid post : List StorageSpec)
    (s₁ s₂ : StorageSpec) (h₂ : StorageHandle)
    (hname : s₁.name = s₂.name)
    (hok : ∀ t ∈ pre ++ s₁ :: mid ++ s₂ :: post, (t.openResult).isOk = true)
    (he₂ : s₂.openResult = .ok h₂)
    (hpost : s₂.name ∉ post.map StorageSpec.name) :
    (open_storages (pre ++ s₁ :: mid ++ s₂ :: post) []).2.2 = none ∧
    (open_storages (pre ++ s₁ :: mid ++ s₂ :: post) []).1.filter isOpenEv =
      ((pre ++ s₁ :: mid ++ s₂ :: post).map fun t => Event.openCall t.name) ∧
    dictGet (open_storages (pre ++ s₁ :: mid ++ s₂ :: post) []).2.1 s₁.name = some h₂ ∧
    (∀ h, Event.closeCall s₁.name h ∈
        close_storages (open_storages (pre ++ s₁ :: mid ++ s₂ :: post) []).2.1 ↔ h = h₂) := by
  have hO := open_storages_ok (pre ++ s₁ :: mid ++ s₂ :: post) [] hok
  have hassoc : pre ++ s₁ :: mid ++ s₂ :: post = (pre ++ s₁ :: mid) ++ s₂ :: post := by
    simp
  have hreg : dictGet (regAfter (pre ++ s₁ :: mid ++ s₂ :: post) []) s₂.name = some h₂ := by
    rw [hassoc, regAfter_append]
    show dictGet (regAfter post
      (dictInsert (regAfter (pre ++ s₁ :: mid) []) s₂.name (specHandle s₂))) s₂.name = some h₂
    rw [dictGet_regAfter_notMem post _ _ hpost, dictGet_dictInsert_self]
    simp [specHandle, he₂]
  have hnodup : ((regAfter (pre ++ s₁ :: mid ++ s₂ :: post) []).map Prod.fst).Nodup :=
    keys_nodup_regAfter _ _ (by simp)
  refine ⟨by rw [hO], ?_, ?_, ?_⟩
  · simp only [hO]
    rw [openTrace_filter]
  · simp only [hO]
    rw [hname]
    exact hreg
  · intro h
    simp only [hO]
    rw [closeCall_mem_close_storages]
    constructor
    · intro hm
      have := dictGet_of_mem _ _ _ hnodup hm
      rw [hname, hreg] at this
      exact (Option.some_injective _ this).symm ▸ rfl
    · intro hh
      subst hh
      exact mem_of_dictGet _ _ _ (by rw [hname]; exact hreg)

/-- Witness for C10 at `[s1C10, s2C10]`: both open, the registry keeps only
the later handle, and only the later handle is ever closed. -/
theorem C10_duplicate_name_drops_earlier_witness :
    (open_storages ([] ++ s1C10 :: [] ++ s2C10 :: []) []).2.2 = none ∧
    (open_storages ([] ++ s1C10 :: [] ++ s2C10 :: []) []).1.filter isOpenEv =
      (([] ++ s1C10 :: [] ++ s2C10 :: [] : List StorageSpec).map
        fun t => Event.openCall t.name) ∧
    dictGet (open_storages ([] ++ s1C10 :: [] ++ s2C10 :: []) []).2.1 s1C10.name =
      some ⟨200, false⟩ ∧
    (Event.closeCall s1C10.name ⟨100, false⟩ ∈
        close_storages (open_storages ([] ++ s1C10 :: [] ++ s2C10 :: []) []).2.1 ↔
      (⟨100, false⟩ : StorageHandle) = ⟨200, false⟩) ∧
    (Event.closeCall s1C10.name ⟨200, false⟩ ∈
        close_storages (open_storages ([] ++ s1C10 :: [] ++ s2C10 :: []) []).2.1 ↔
      (⟨200, false⟩ : StorageHandle) = ⟨200, false⟩) := by
  have H := C10_duplicate_name_drops_earlier [] [] [] s1C10 s2C10 ⟨200, false⟩
    (by decide) (by decide) (by decide) (by decide)
  exact ⟨H.1, H.2.1, H.2.2.1, H.2.2.2 ⟨100, false⟩, H.2.2.2 ⟨200, false⟩⟩

/-- C4: `check_socket` reports the operator-facing usage error if and only
if the live-connection probe succeeds; when it does, `main` aborts without
touching any storage.  For a path-based address whose stale socket file
pre-exists with no live peer accepting, the probe does not report in-use and
`clear_socket` removes the stale file; removing an absent file is a no-op
(`os.error` ignored). -/
theorem C4_preflight_probe_and_stale_file :
    (∀ live : Bool, (check_socket live).isSome = true ↔ can_connect live = true) ∧
    (∀ env : MainEnv, env.canConnect = true → noEvent isOpenEv (ZEOServer.main env).1) ∧
    (∀ p fs, p ∈ fs → check_socket false = none ∧ p ∉ clear_socket (Address.path p) fs) ∧
    (∀ p fs, p ∉ fs → clear_socket (Address.path p) fs = fs) := by
  refine ⟨?_, ?_, ?_, ?_⟩
  · intro live
    cases live <;> simp [check_socket, can_connect]
  · intro env h e he
    have : (ZEOServer.main env).1 = [Event.probe, Event.usageError "address already in use"] := by
      simp [ZEOServer.main, h]
    rw [this] at he
    rcases (by simpa using he : e = Event.probe ∨ e = Event.usageError "address already in use")
      with hh | hh <;> subst hh <;> rfl
  · intro p fs hp
    refine ⟨rfl, ?_⟩
    simp [clear_socket]
  · intro p fs hp
    simp only [clear_socket]
    apply List.filter_eq_self.mpr
    intro q hq
    simp only [decide_eq_true_eq]
    intro hqp
    exact hp (hqp ▸ hq)

/-- Witness for C4: a live peer is reported in-use and opens nothing; with
no live peer and a stale socket file, the probe passes and the file is
removed; removing it again is a no-op. -/
theorem C4_preflight_probe_and_stale_file_witness :
    ((check_socket true).isSome = true ↔ can_connect true = true) ∧
    noEvent isOpenEv (ZEOServer.main ⟨true, [⟨"1", "FileStorage", .ok ⟨1, false⟩⟩],
      none, none, LoopEnd.normal⟩).1 ∧
    (check_socket false = none ∧
      "/tmp/zeo.sock" ∉ clear_socket (Address.path "/tmp/zeo.sock") ["/tmp/zeo.sock"]) ∧
    clear_socket (Address.path "/tmp/zeo.sock") ["/tmp/other"] = ["/tmp/other"] :=
  ⟨C4_preflight_probe_and_stale_file.1 true,
   C4_preflight_probe_and_stale_file.2.1 _ (by decide),
   C4_preflight_probe_and_stale_file.2.2.1 "/tmp/zeo.sock" ["/tmp/zeo.sock"] (by decide),
   C4_preflight_probe_and_stale_file.2.2.2 "/tmp/zeo.sock" ["/tmp/other"] (by decide)⟩

theorem mainBody_termination (specs : List StorageSpec) (le : LoopEnd) (msg : String)
    (hok : ∀ s ∈ specs, (s.openResult).isOk = true)
    (hle : (le = LoopEnd.sigterm ∧ msg = "terminated by SIGTERM") ∨
      (le = LoopEnd.sigint ∧ msg = "terminated by SIGINT")) :
    mainBody (termEnv specs le) =
      (openTrace specs ++ [Event.setupSignalsCall, Event.createServerCall] ++
        [Event.loopForeverCall, Event.logInfo msg],
       regAfter specs [], some (Err.systemExit 0)) := by
  rcases hle with ⟨hl, hmsg⟩ | ⟨hl, hmsg⟩ <;> subst hl <;> subst hmsg <;>
    simp [mainBody, termEnv, open_storages_ok specs [] hok, loop_forever,
      handle_sigterm, handle_sigint]

/-- C6: a termination signal — SIGTERM or SIGINT — delivered during the
serving phase makes the corresponding installed handler log its
informational message ("terminated by SIGTERM" respectively
"terminated by SIGINT") and exit with status 0 (`SystemExit 0` propagates
out of `main`), and `close_storages` — including the `close()` of every
registered handle — runs before that exit completes: the teardown events
follow the serving event and precede the end of the trace. -/
theorem C6_termination_signal_logs_and_exits_zero (specs : List StorageSpec)
    (le : LoopEnd) (msg : String)
    (hok : ∀ s ∈ specs, (s.openResult).isOk = true)
    (hle : (le = LoopEnd.sigterm ∧ msg = "terminated by SIGTERM") ∨
      (le = LoopEnd.sigint ∧ msg = "terminated by SIGINT")) :
    (ZEOServer.main (termEnv specs le)).2 = some (Err.systemExit 0) ∧
    Event.logInfo msg ∈ (ZEOServer.main (termEnv specs le)).1 ∧
    Event.closeStoragesCall ∈ (ZEOServer.main (termEnv specs le)).1 ∧
    (∀ p ∈ (open_storages specs []).2.1,
      Event.closeCall p.1 p.2 ∈ (ZEOServer.main (termEnv specs le)).1) ∧
    eventsBefore isServeEv isTeardownEv (ZEOServer.main (termEnv specs le)).1 := by
  have hcc : (termEnv specs le).canConnect = false := rfl
  have hm := main_shape (termEnv specs le) hcc
  have hb := mainBody_termination specs le msg hok hle
  refine ⟨?_, ?_, ?_, ?_, ?_⟩
  · rw [hm, hb]
  · rw [hm, hb]
    simp
  · rw [hm]
    simp
  · intro p hp
    have hpreg : p ∈ (mainBody (termEnv specs le)).2.1 := by
      rw [hb]
      have : (open_storages specs []).2.1 = regAfter specs [] := by
        rw [open_storages_ok specs [] hok]
      rw [this] at hp
      exact hp
    have hc : Event.closeCall p.1 p.2 ∈ close_storages (mainBody (termEnv specs le)).2.1 :=
      (closeCall_mem_close_storages _ p.1 p.2).mpr (by simpa using hpreg)
    rw [hm]
    simp only [List.mem_append]
    tauto
  · exact eventsBefore_mono isBodyStepEv isServeEv isTeardownEv isTeardownEv _
      (main_order_body_teardown (termEnv specs le) hcc)
      (fun e he => by cases e <;> simp_all [isServeEv, isBodyStepEv, isOpenEv, isSetupEv,
        isCreateEv])
      (fun e he => he)

/-- Witness for C6 with one storage, exercising both termination signals:
SIGTERM and SIGINT each log their message, exit with status 0, and are
preceded by the full teardown. -/
theorem C6_termination_signal_logs_and_exits_zero_witness :
    ((ZEOServer.main (termEnv [⟨"1", "FileStorage", .ok ⟨7, false⟩⟩] LoopEnd.sigterm)).2 =
      some (Err.systemExit 0) ∧
    Event.logInfo "terminated by SIGTERM" ∈
      (ZEOServer.main (termEnv [⟨"1", "FileStorage", .ok ⟨7, false⟩⟩] LoopEnd.sigterm)).1 ∧
    Event.closeStoragesCall ∈
      (ZEOServer.main (termEnv [⟨"1", "FileStorage", .ok ⟨7, false⟩⟩] LoopEnd.sigterm)).1 ∧
    Event.closeCall "1" ⟨7, false⟩ ∈
      (ZEOServer.main (termEnv [⟨"1", "FileStorage", .ok ⟨7, false⟩⟩] LoopEnd.sigterm)).1 ∧
    eventsBefore isServeEv isTeardownEv
      (ZEOServer.main (termEnv [⟨"1", "FileStorage", .ok ⟨7, false⟩⟩] LoopEnd.sigterm)).1) ∧
    ((ZEOServer.main (termEnv [⟨"1", "FileStorage", .ok ⟨7, false⟩⟩] LoopEnd.sigint)).2 =
      some (Err.systemExit 0) ∧
    Event.logInfo "terminated by SIGINT" ∈
      (ZEOServer.main (termEnv [⟨"1", "FileStorage", .ok ⟨7, false⟩⟩] LoopEnd.sigint)).1 ∧
    Event.closeStoragesCall ∈
      (ZEOServer.main (termEnv [⟨"1", "FileStorage", .ok ⟨7, false⟩⟩] LoopEnd.sigint)).1 ∧
    Event.closeCall "1" ⟨7, false⟩ ∈
      (ZEOServer.main (termEnv [⟨"1", "FileStorage", .ok ⟨7, false⟩⟩] LoopEnd.sigint)).1 ∧
    eventsBefore isServeEv isTeardownEv
      (ZEOServer.main (termEnv [⟨"1", "FileStorage", .ok ⟨7, false⟩⟩] LoopEnd.sigint)).1) := by
  have Ht := C6_termination_signal_logs_and_exits_zero [⟨"1", "FileStorage", .ok ⟨7, false⟩⟩]
    LoopEnd.sigterm "terminated by SIGTERM" (by decide) (Or.inl ⟨rfl, rfl⟩)
  have Hi := C6_termination_signal_logs_and_exits_zero [⟨"1", "FileStorage", .ok ⟨7, false⟩⟩]
    LoopEnd.sigint "terminated by SIGINT" (by decide) (Or.inr ⟨rfl, rfl⟩)
  exact ⟨⟨Ht.1, Ht.2.1, Ht.2.2.1, Ht.2.2.2.1 ("1", ⟨7, false⟩) (by decide), Ht.2.2.2.2⟩,
    ⟨Hi.1, Hi.2.1, Hi.2.2.1, Hi.2.2.2.1 ("1", ⟨7, false⟩) (by decide), Hi.2.2.2.2⟩⟩

theorem noEvent_singleton (p : Event → Bool) (x : Event) (h : p x = false) :
    noEvent p [x] := by
  intro e he
  have hx : e = x := by simpa using he
  rw [hx]
  exact h

theorem mainBody_no (env : MainEnv) (p : Event → Bool)
    (himp : ∀ e, p e = true → (isProbeEv e || isClearEv e || isTeardownEv e) = true) :
    noEvent p (mainBody env).1 :=
  noEvent_mono p _ _ (mainBody_noEvent env) himp

theorem close_storages_no (reg : Registry) (p : Event → Bool)
    (himp : ∀ e, p e = true →
      (isProbeEv e || isClearEv e || isBodyStepEv e || isCloseStoragesEv e) = true) :
    noEvent p (close_storages reg) :=
  noEvent_mono p _ _ (close_storages_noEvent reg) himp

theorem open_storages_no (specs : List StorageSpec) (reg : Registry) (p : Event → Bool)
    (himp : ∀ e, p e = true → (isProbeEv e || isClearEv e || isTeardownEv e || isSetupEv e ||
      isCreateEv e || isServeEv e) = true) :
    noEvent p (open_storages specs reg).1 :=
  noEvent_mono p _ _ (open_storages_noEvent specs reg) himp

/-- C9: lifecycle ordering of `main`.  `close_storages` is entered at most
once per run; and in every run that passes preflight, the probe precedes
every storage open, every open precedes both the arming of signal handlers
and the entry into the serving loop (the registry is fully populated first),
and a `clear_socket` occurs before every open as well as after all teardown
work. -/
theorem C9_lifecycle_order (env : MainEnv) :
    (ZEOServer.main env).1.countP isCloseStoragesEv ≤ 1 ∧
    (env.canConnect = false →
      eventsBefore isProbeEv isOpenEv (ZEOServer.main env).1 ∧
      eventsBefore isOpenEv (fun e => isSetupEv e || isServeEv e) (ZEOServer.main env).1 ∧
      occursBeforeAll Event.clearSocketCall isOpenEv (ZEOServer.main env).1 ∧
      occursAfterAll Event.clearSocketCall isTeardownEv (ZEOServer.main env).1) := by
  constructor
  · cases hcb : env.canConnect with
    | true =>
        have htr : (ZEOServer.main env).1 =
            [Event.probe, Event.usageError "address already in use"] := by
          simp [ZEOServer.main, hcb]
        rw [htr]
        decide
    | false =>
        rw [main_shape env hcb]
        simp only [List.countP_append]
        have h1 : (mainBody env).1.countP isCloseStoragesEv = 0 :=
          List.countP_eq_zero.mpr (by
            intro e he
            have hc := mainBody_noEvent env e he
            cases e <;> simp_all [isProbeEv, isClearEv, isTeardownEv, isCloseStoragesEv,
              isCloseEv])
        have h2 : (close_storages (mainBody env).2.1).countP isCloseStoragesEv = 0 :=
          List.countP_eq_zero.mpr (by
            intro e he
            have hc := close_storages_noEvent _ e he
            cases e <;> simp_all [isProbeEv, isClearEv, isBodyStepEv, isCloseStoragesEv,
              isOpenEv, isSetupEv, isCreateEv, isServeEv])
        rw [h1, h2]
        simp [List.countP_cons, isCloseStoragesEv]
  · intro hcc
    have hm := main_shape env hcc
    obtain ⟨tail, hbtr, htail⟩ := mainBody_shape env
    refine ⟨?_, ?_, ?_, ?_⟩
    · -- probe before any open
      have htr : (ZEOServer.main env).1 =
          [Event.probe] ++ ([Event.clearSocketCall] ++ ((mainBody env).1 ++
            ([Event.closeStoragesCall] ++
              (close_storages (mainBody env).2.1 ++ [Event.clearSocketCall])))) := by
        rw [hm]
        simp [List.append_assoc]
      rw [htr]
      apply eventsBefore_append
      · refine noEvent_append _ _ _ (noEvent_singleton _ _ rfl) ?_
        refine noEvent_append _ _ _ (mainBody_no env _ (fun e he => by simp [he])) ?_
        refine noEvent_append _ _ _ (noEvent_singleton _ _ rfl) ?_
        exact noEvent_append _ _ _ (close_storages_no _ _ (fun e he => by simp [he]))
          (noEvent_singleton _ _ rfl)
      · exact noEvent_singleton _ _ rfl
    · -- every open before signal arming and before serving
      have htr : (ZEOServer.main env).1 =
          ([Event.probe, Event.clearSocketCall] ++ (open_storages env.specs []).1) ++
            (tail ++ ([Event.closeStoragesCall] ++
              (close_storages (mainBody env).2.1 ++ [Event.clearSocketCall]))) := by
        rw [hm, hbtr]
        simp [List.append_assoc]
      rw [htr]
      apply eventsBefore_append
      · refine noEvent_append _ _ _ ?_ ?_
        · intro e he
          rcases htail e he with h | h | h | ⟨m, h⟩ <;> subst h <;> rfl
        · refine noEvent_append _ _ _ (noEvent_singleton _ _ rfl) ?_
          exact noEvent_append _ _ _
            (close_storages_no _ _ (fun e he => by simp [isBodyStepEv, he]))
            (noEvent_singleton _ _ rfl)
      · intro e he
        have he₂ : e = Event.probe ∨ e = Event.clearSocketCall ∨
            e ∈ (open_storages env.specs []).1 := by simpa using he
        rcases he₂ with hh | hh | hh
        · subst hh; rfl
        · subst hh; rfl
        · exact open_storages_no env.specs [] (fun e => isSetupEv e || isServeEv e)
            (fun e₂ he₃ => by cases e₂ <;> simp_all [isSetupEv, isServeEv, isProbeEv,
              isClearEv, isTeardownEv, isCreateEv, isCloseStoragesEv, isCloseEv]) e hh
    · -- a clear_socket before every open
      have htr : (ZEOServer.main env).1 =
          Event.probe :: Event.clearSocketCall :: ((mainBody env).1 ++
            ([Event.closeStoragesCall] ++
              (close_storages (mainBody env).2.1 ++ [Event.clearSocketCall]))) := by
        rw [hm]
        simp
      refine ⟨1, ?_, ?_, ?_⟩
      · rw [htr]
        simp
      · simp [htr]
      · intro j hj hq
        by_contra hle
        push_neg at hle
        interval_cases j
        · simp [htr, isOpenEv] at hq
        · simp [htr, isOpenEv] at hq
    · -- a clear_socket after all teardown work
      have htr : (ZEOServer.main env).1 =
          ([Event.probe, Event.clearSocketCall] ++ (mainBody env).1 ++
            [Event.closeStoragesCall] ++ close_storages (mainBody env).2.1) ++
            [Event.clearSocketCall] := by
        rw [hm]
      set A := [Event.probe, Event.clearSocketCall] ++ (mainBody env).1 ++
        [Event.closeStoragesCall] ++ close_storages (mainBody env).2.1 with hA
      have hlen : (ZEOServer.main env).1.length = A.length + 1 := by
        rw [htr]
        simp
      refine ⟨A.length, ?_, ?_, ?_⟩
      · omega
      · have := List.getElem_concat_length A Event.clearSocketCall A.length rfl
          (by simp)
        simp only [htr]
        exact this
      · intro j hj hq
        by_contra hge
        push_neg at hge
        have hj₂ : j = A.length := by omega
        subst hj₂
        have hgl : (ZEOServer.main env).1[A.length] = Event.clearSocketCall := by
          have := List.getElem_concat_length A Event.clearSocketCall A.length rfl (by simp)
          simp only [htr]
          exact this
        rw [hgl] at hq
        exact Bool.false_ne_true hq

/-- Witness for C9 at `envC9`. -/
theorem C9_lifecycle_order_witness :
    (ZEOServer.main envC9).1.countP isCloseStoragesEv ≤ 1 ∧
    envC9.canConnect = false ∧
    eventsBefore isProbeEv isOpenEv (ZEOServer.main envC9).1 ∧
    eventsBefore isOpenEv (fun e => isSetupEv e || isServeEv e) (ZEOServer.main envC9).1 ∧
    occursBeforeAll Event.clearSocketCall isOpenEv (ZEOServer.main envC9).1 ∧
    occursAfterAll Event.clearSocketCall isTeardownEv (ZEOServer.main envC9).1 := by
  have H := C9_lifecycle_order envC9
  have H₂ := H.2 (by decide)
  exact ⟨H.1, by decide, H₂.1, H₂.2.1, H₂.2.2.1, H₂.2.2.2⟩

theorem installStep_ne (hm : String → Bool) (d : Nat → SigDisp) (p : Nat × String)
    (s : Nat) (h : s ≠ p.1) : installStep hm d p s = d s := by
  unfold installStep
  by_cases hme : hm ("handle_" ++ pyLower p.2) = true <;> simp [hme, h]

theorem foldl_installStep_notMem (hm : String → Bool) (l : List (Nat × String))
    (d : Nat → SigDisp) (s : Nat) (h : s ∉ l.map Prod.fst) :
    (l.foldl (installStep hm) d) s = d s := by
  induction l generalizing d with
  | nil => rfl
  | cons p rest ih =>
      simp only [List.map_cons, List.mem_cons] at h
      push_neg at h
      show (rest.foldl (installStep hm) (installStep hm d p)) s = d s
      rw [ih _ h.2, installStep_ne _ _ _ _ h.1]

theorem foldl_installStep_nohandler (hm : String → Bool) (l : List (Nat × String))
    (d : Nat → SigDisp) (s : Nat)
    (h : ∀ p ∈ l, p.1 = s → hm ("handle_" ++ pyLower p.2) = false) :
    (l.foldl (installStep hm) d) s = d s := by
  induction l generalizing d with
  | nil => rfl
  | cons p rest ih =>
      show (rest.foldl (installStep hm) (installStep hm d p)) s = d s
      rw [ih _ fun q hq => h q (List.mem_cons_of_mem _ hq)]
      by_cases hs : s = p.1
      · have hfm := h p (List.mem_cons_self _ _) hs.symm
        unfold installStep
        simp [hfm]
      · exact installStep_ne _ _ _ _ hs

theorem foldl_installStep_mem (hm : String → Bool) (l : List (Nat × String))
    (d : Nat → SigDisp) (s : Nat) (name : String)
    (hn : (l.map Prod.fst).Nodup) (hmem : (s, name) ∈ l)
    (hhm : hm ("handle_" ++ pyLower name) = true) :
    (l.foldl (installStep hm) d) s = SigDisp.wrapper ("handle_" ++ pyLower name) := by
  induction l generalizing d with
  | nil => simp at hmem
  | cons p rest ih =>
      simp only [List.map_cons, List.nodup_cons] at hn
      rcases List.mem_cons.mp hmem with h | h
      · subst h
        show (rest.foldl (installStep hm) (installStep hm d (s, name))) s = _
        rw [foldl_installStep_notMem hm rest _ s hn.1]
        unfold installStep
        simp [hhm]
      · exact ih _ hn.2 h

theorem foldl_installStep_wrapper_inv (hm : String → Bool) (l : List (Nat × String))
    (d : Nat → SigDisp) (s : Nat) (m : String)
    (h : (l.foldl (installStep hm) d) s = SigDisp.wrapper m) :
    d s = SigDisp.wrapper m ∨
      ∃ p ∈ l, s = p.1 ∧ m = "handle_" ++ pyLower p.2 ∧ hm m = true := by
  induction l generalizing d with
  | nil => exact Or.inl h
  | cons p rest ih =>
      rcases ih _ h with h₂ | ⟨q, hq, h₂⟩
      · by_cases hme : hm ("handle_" ++ pyLower p.2) = true
        · by_cases hs : s = p.1
          · unfold installStep at h₂
            rw [if_pos hme] at h₂
            simp only [if_pos hs] at h₂
            cases h₂
            exact Or.inr ⟨p, List.mem_cons_self _ _, hs, rfl, hme⟩
          · rw [installStep_ne _ _ _ _ hs] at h₂
            exact Or.inl h₂
        · unfold installStep at h₂
          rw [if_neg hme] at h₂
          exact Or.inl h₂
      · exact Or.inr ⟨q, List.mem_cons_of_mem _ hq, h₂⟩

/-- C5: on POSIX, `setup_signals` installs a wrapper for a signal if and
only if the server has a method named `handle_` + the lowercased
symbolic name of the signal (conjuncts 2 and 3); any signal none of whose table entries
has a matching method keeps its prior disposition, except `SIGXFSZ`, which
— when the platform defines it — is set to ignored before the table-driven
installation (conjunct 4); on non-POSIX platforms no disposition changes at
all (conjunct 1). -/
theorem C5_setup_signals_install_iff (plat : SignalPlatform) (hasMethod : String → Bool)
    (prior : Nat → SigDisp)
    (hn : (plat.table.map Prod.fst).Nodup)
    (hprior : ∀ s m, prior s ≠ SigDisp.wrapper m) :
    (plat.posix = false → ∀ s, setup_signals plat hasMethod prior s = prior s) ∧
    (plat.posix = true → ∀ s name, (s, name) ∈ plat.table →
      hasMethod ("handle_" ++ pyLower name) = true →
      setup_signals plat hasMethod prior s =
        SigDisp.wrapper ("handle_" ++ pyLower name)) ∧
    (plat.posix = true → ∀ s m,
      setup_signals plat hasMethod prior s = SigDisp.wrapper m →
      hasMethod m = true ∧ ∃ name, (s, name) ∈ plat.table ∧
        m = "handle_" ++ pyLower name) ∧
    (plat.posix = true → ∀ s,
      (∀ name, (s, name) ∈ plat.table → hasMethod ("handle_" ++ pyLower name) = false) →
      (plat.sigxfsz = some s → setup_signals plat hasMethod prior s = SigDisp.sigIgn) ∧
      (plat.sigxfsz ≠ some s → setup_signals plat hasMethod prior s = prior s)) := by
  refine ⟨?_, ?_, ?_, ?_⟩
  · intro hp s
    simp [setup_signals, hp]
  · intro hp s name hmem hhm
    simp only [setup_signals, hp, if_true]
    exact foldl_installStep_mem hasMethod plat.table _ s name hn hmem hhm
  · intro hp s m hw
    simp only [setup_signals, hp, if_true] at hw
    rcases foldl_installStep_wrapper_inv hasMethod plat.table _ s m hw with
      h | ⟨p, hpm, hs, hm₂, hme⟩
    · exfalso
      cases hx : plat.sigxfsz with
      | none =>
          rw [hx] at h
          exact hprior s m h
      | some x =>
          rw [hx] at h
          by_cases hsx : s = x
          · simp [xfszStep, hsx] at h
          · simp only [xfszStep, if_neg hsx] at h
            exact hprior s m h
    · refine ⟨hme, p.2, ?_, hm₂⟩
      rw [hs]
      simpa using hpm
  · intro hp s hnone
    have hfold : setup_signals plat hasMethod prior s = xfszStep plat.sigxfsz prior s := by
      simp only [setup_signals, hp, if_true]
      apply foldl_installStep_nohandler
      intro p hpm hps
      apply hnone p.2
      rw [← hps]
      simpa using hpm
    constructor
    · intro hx
      rw [hfold, hx]
      simp [xfszStep]
    · intro hx
      rw [hfold]
      cases hx₂ : plat.sigxfsz with
      | none => rfl
      | some x =>
          have : s ≠ x := by
            intro hh
            exact hx (by rw [hx₂, hh])
          simp [xfszStep, this]

/-- Witness for C5: SIGTERM gets its wrapper, SIGXFSZ (no matching method)
is forced to ignored, SIGHUP (no matching method) keeps its prior
disposition, and on a non-POSIX platform nothing changes. -/
theorem C5_setup_signals_install_iff_witness :
    setup_signals platC5 zeoServerHasMethod priorC5 15 =
      SigDisp.wrapper ("handle_" ++ pyLower "SIGTERM") ∧
    setup_signals platC5 zeoServerHasMethod priorC5 25 = SigDisp.sigIgn ∧
    setup_signals platC5 zeoServerHasMethod priorC5 1 = priorC5 1 ∧
    setup_signals platC5np zeoServerHasMethod priorC5 15 = priorC5 15 := by
  have H := C5_setup_signals_install_iff platC5 zeoServerHasMethod priorC5
    (by decide) (fun s m => by simp [priorC5])
  have Hnp := C5_setup_signals_install_iff platC5np zeoServerHasMethod priorC5
    (by decide) (fun s m => by simp [priorC5])
  refine ⟨?_, ?_, ?_, ?_⟩
  · exact H.2.1 rfl 15 "SIGTERM" (by decide) (by decide)
  · exact (H.2.2.2 rfl 25 (by intro name hname; simp [platC5] at hname; subst hname; decide)).1
      rfl
  · exact (H.2.2.2 rfl 1 (by intro name hname; simp [platC5] at hname; subst hname; decide)).2
      (by decide)
  · exact Hnp.1 rfl 15

theorem applyFilenames_some (args : List String) (l₀ : List FileStorageOpener) :
    ∃ ext, applyFilenames (some l₀) args = some (l₀ ++ ext) ∧
      ext.map FileStorageOpener.name =
        (List.range args.length).map (fun i => toString (l₀.length + i + 1)) ∧
      ext.map (fun o => o.config.path) = args := by
  induction args generalizing l₀ with
  | nil => exact ⟨[], by simp [applyFilenames], by simp, by simp⟩
  | cons a rest ih =>
      obtain ⟨ext₂, he, hname, hpath⟩ :=
        ih (l₀ ++ [⟨⟨toString (1 + l₀.length), a, 0, 0, none, none⟩⟩])
      refine ⟨⟨⟨toString (1 + l₀.length), a, 0, 0, none, none⟩⟩ :: ext₂, ?_, ?_, ?_⟩
      · show applyFilenames (handle_filename (some l₀) a) rest = _
        rw [show handle_filename (some l₀) a =
          some (l₀ ++ [⟨⟨toString (1 + l₀.length), a, 0, 0, none, none⟩⟩]) from rfl, he]
        congr 1
        simp
      · simp only [List.map_cons, hname, List.length_cons]
        rw [List.range_succ_eq_map, List.map_cons, List.map_map]
        congr 1
        · exact congrArg toString (by omega)
        · apply List.map_congr_left
          intro i _
          exact congrArg toString
            (by simp only [List.length_append, List.length_cons, List.length_nil]; omega)
      · simp only [List.map_cons, hpath]

/-- C7: for every sequence of N direct `-f FILENAME` occurrences,
`handle_filename` synthesizes N `FileStorage` opener specs whose names are
the decimal strings "1", "2", …, "N" in occurrence order, each wrapping the
given path. -/
theorem C7_sequential_names (args : List String) :
    ((applyFilenames none args).getD []).map FileStorageOpener.name =
      (List.range args.length).map (fun i => toString (i + 1)) ∧
    ((applyFilenames none args).getD []).map (fun o => o.config.path) = args := by
  cases args with
  | nil => exact ⟨rfl, rfl⟩
  | cons a rest =>
      have hstep : applyFilenames none (a :: rest) = applyFilenames (some []) (a :: rest) := rfl
      obtain ⟨ext, he, hname, hpath⟩ := applyFilenames_some (a :: rest) []
      rw [hstep, he]
      simp only [List.nil_append, Option.getD_some]
      refine ⟨?_, hpath⟩
      rw [hname]
      apply List.map_congr_left
      intro i _
      exact congrArg toString (by simp only [List.length_nil]; omega)

theorem sigDictGet_sigDictInsert_self (d : SigTable) (k : Nat) (v : String) :
    sigDictGet (sigDictInsert d k v) k = some v := by
  induction d with
  | nil => simp [sigDictInsert, sigDictGet]
  | cons p rest ih =>
      obtain ⟨pk, pv⟩ := p
      by_cases h : pk = k
      · simp [sigDictInsert, sigDictGet, h]
      · simp [sigDictInsert, sigDictGet, h, ih]

theorem sigDictGet_sigDictInsert_ne (d : SigTable) (k k₁ : Nat) (v : String)
    (h : k₁ ≠ k) : sigDictGet (sigDictInsert d k v) k₁ = sigDictGet d k₁ := by
  have h₂ : k ≠ k₁ := fun hh => h hh.symm
  induction d with
  | nil => simp [sigDictInsert, sigDictGet, h₂]
  | cons p rest ih =>
      obtain ⟨pk, pv⟩ := p
      by_cases hp : pk = k
      · simp [sigDictInsert, sigDictGet, hp, h₂]
      · by_cases hp₁ : pk = k₁
        · simp [sigDictInsert, sigDictGet, hp, hp₁, h]
        · simp [sigDictInsert, sigDictGet, hp, hp₁, ih]

theorem foldl_signameStep_notmem (d : List (String × Nat)) (acc : SigTable) (sig : Nat)
    (h : ∀ p ∈ d, sigQualifies p.1 = true → p.2 ≠ sig) :
    sigDictGet (d.foldl signameStep acc) sig = sigDictGet acc sig := by
  induction d generalizing acc with
  | nil => rfl
  | cons p rest ih =>
      show sigDictGet (rest.foldl signameStep (signameStep acc p)) sig = _
      rw [ih _ fun q hq => h q (List.mem_cons_of_mem _ hq)]
      unfold signameStep
      by_cases hq : sigQualifies p.1 = true
      · rw [if_pos hq]
        exact sigDictGet_sigDictInsert_ne _ _ _ _
          fun hh => h p (List.mem_cons_self _ _) hq hh.symm
      · rw [if_neg hq]

theorem foldl_signameStep_mem (d : List (String × Nat)) (acc : SigTable)
    (p : String × Nat)
    (hn : ((d.filter fun q => sigQualifies q.1).map Prod.snd).Nodup)
    (hp : p ∈ d) (hq : sigQualifies p.1 = true) :
    sigDictGet (d.foldl signameStep acc) p.2 = some p.1 := by
  induction d generalizing acc with
  | nil => simp at hp
  | cons q rest ih =>
      rcases List.mem_cons.mp hp with h | h
      · subst h
        show sigDictGet (rest.foldl signameStep (signameStep acc p)) p.2 = some p.1
        have hn₂ : p.2 ∉ (rest.filter fun r => sigQualifies r.1).map Prod.snd := by
          rw [List.filter_cons, if_pos hq] at hn
          simp only [List.map_cons, List.nodup_cons] at hn
          exact hn.1
        rw [foldl_signameStep_notmem rest _ p.2 ?_]
        · unfold signameStep
          rw [if_pos hq, sigDictGet_sigDictInsert_self]
        · intro r hr hrq hre
          exact hn₂ (List.mem_map.mpr ⟨r, List.mem_filter.mpr ⟨hr, hrq⟩, hre⟩)
      · have hn₂ : ((rest.filter fun r => sigQualifies r.1).map Prod.snd).Nodup := by
          rw [List.filter_cons] at hn
          by_cases hqq : sigQualifies q.1 = true
          · rw [if_pos hqq] at hn
            simp only [List.map_cons, List.nodup_cons] at hn
            exact hn.2
          · rw [if_neg hqq] at hn
            exact hn
        exact ih _ hn₂ h

theorem foldl_signameStep_some (d : List (String × Nat)) (acc : SigTable) (sig : Nat)
    (n : String) (h : sigDictGet (d.foldl signameStep acc) sig = some n) :
    sigDictGet acc sig = some n ∨ ((n, sig) ∈ d ∧ sigQualifies n = true) := by
  induction d generalizing acc with
  | nil => exact Or.inl h
  | cons p rest ih =>
      rcases ih _ h with h₂ | ⟨hmem, hq⟩
      · unfold signameStep at h₂
        by_cases hq : sigQualifies p.1 = true
        · rw [if_pos hq] at h₂
          by_cases hs : sig = p.2
          · subst hs
            rw [sigDictGet_sigDictInsert_self] at h₂
            cases h₂
            exact Or.inr ⟨by simp, hq⟩
          · rw [sigDictGet_sigDictInsert_ne _ _ _ _ hs] at h₂
            exact Or.inl h₂
        · rw [if_neg hq] at h₂
          exact Or.inl h₂
      · exact Or.inr ⟨List.mem_cons_of_mem _ hmem, hq⟩

/-- C8: `signame` fills the process-wide `signames` table lazily — an
already-computed table is reused unchanged, a missing one is computed by
`init_signames` — and the computed table maps every signal number exposed
under a unique name starting with "SIG" (but not "SIG_") to that name,
contains nothing else, and `signame` returns the recorded name for the
signal, or `"signal NNN"` when the signal has no entry. -/
theorem C8_signame_lazy_table (moduleDict : List (String × Nat)) :
    (∀ t sig, (signame (some t) moduleDict sig).1 = t) ∧
    (∀ sig, (signame none moduleDict sig).1 = init_signames moduleDict) ∧
    (((moduleDict.filter fun p => sigQualifies p.1).map Prod.snd).Nodup →
      ∀ p ∈ moduleDict, sigQualifies p.1 = true →
        sigDictGet (init_signames moduleDict) p.2 = some p.1) ∧
    (∀ sig n, sigDictGet (init_signames moduleDict) sig = some n →
      (n, sig) ∈ moduleDict ∧ sigQualifies n = true) ∧
    (∀ t sig, sigDictGet t sig = none →
      (signame (some t) moduleDict sig).2 = "signal " ++ toString sig) ∧
    (∀ t sig n, sigDictGet t sig = some n → n ≠ "" →
      (signame (some t) moduleDict sig).2 = n) := by
  refine ⟨fun t sig => rfl, fun sig => rfl, ?_, ?_, ?_, ?_⟩
  · intro hn p hp hq
    exact foldl_signameStep_mem moduleDict [] p hn hp hq
  · intro sig n h
    rcases foldl_signameStep_some moduleDict [] sig n h with h₂ | h₂
    · simp [sigDictGet] at h₂
    · exact h₂
  · intro t sig h
    simp [signame, h]
  · intro t sig n h hne
    simp [signame, h, hne]

/-- Witness for C8 at `dictC8`: the table is reused when present and built
when absent, qualifying entries are found, lookups come only from
qualifying entries, and `signame` falls back to the numbered form. -/
theorem C8_signame_lazy_table_witness :
    (signame (some [(15, "SIGTERM")]) dictC8 2).1 = [(15, "SIGTERM")] ∧
    (signame none dictC8 15).1 = init_signames dictC8 ∧
    sigDictGet (init_signames dictC8) 15 = some "SIGTERM" ∧
    (("SIGINT", 2) ∈ dictC8 ∧ sigQualifies "SIGINT" = true) ∧
    (signame (some [(15, "SIGTERM")]) dictC8 9).2 = "signal " ++ toString 9 ∧
    (signame (some [(15, "SIGTERM")]) dictC8 15).2 = "SIGTERM" := by
  have H := C8_signame_lazy_table dictC8
  exact ⟨H.1 [(15, "SIGTERM")] 2, H.2.1 15,
    H.2.2.1 (by decide) ("SIGTERM", 15) (by decide) (by decide),
    H.2.2.2.1 2 "SIGINT" (by decide),
    H.2.2.2.2.1 [(15, "SIGTERM")] 9 (by decide),
    H.2.2.2.2.2 [(15, "SIGTERM")] 15 "SIGTERM" (by decide) (by decide)⟩
